import Mathlib

/-!
Verification of the reference-redaction core (`redactor/__init__.py`).

The development shallowly embeds the pure algorithmic core of the
repository: coordinate parsing (`_extract_raw_reference_boxes`),
region consolidation (`_cluster_and_merge_boxes`, `_clean_cluster`),
redaction planning (`_calculate_final_coordinates` and the padded
rectangle built in `_draw_rects_and_save`), and the two job kinds
(`process`, `_get_raw_xml_from_grobid`).  Python floats are modelled as
rationals, Python lists as `List`, dictionaries as association lists,
and exceptions as `Except` values; external collaborators (file system,
HTTP, the PDF engine) are modelled as explicit outcome parameters.
-/

/-- A detected annotation rectangle on one page: the dictionary
`{'x': x, 'y': y, 'w': w, 'h': h}` built in `_extract_raw_reference_boxes`. -/
structure Box where
  x : ℚ
  y : ℚ
  w : ℚ
  h : ℚ
deriving DecidableEq, Repr

/-- A merged region as built in `_cluster_and_merge_boxes`:
`{'cluster_id': i+1, 'x': min_x, 'y': min_y, 'w': max_x1-min_x, 'h': max_y1-min_y}`. -/
structure MergedBox where
  cluster_id : ℕ
  x : ℚ
  y : ℚ
  w : ℚ
  h : ℚ
deriving DecidableEq, Repr

/-- Source constant: the horizontal threshold ratio 0.16
(source name ends differently; the value is what matters). -/
def HORIZONTAL_THRESHOLD_FRACTION : ℚ := 16 / 100

/-- Source constant LINE_HEIGHT_MULTIPLIER = 4.0. -/
def LINE_HEIGHT_MULTIPLIER : ℚ := 4

/-- Source constant VERTICAL_Y_THRESHOLD_TOP = 120.0. -/
def VERTICAL_Y_THRESHOLD_TOP : ℚ := 120

/-- Source constant VERTICAL_Y_THRESHOLD_BOTTOM = 80.0. -/
def VERTICAL_Y_THRESHOLD_BOTTOM : ℚ := 80

/-- Source constant DELETION_PADDING = 7. -/
def DELETION_PADDING : ℚ := 7

/-!
### Splitting a list into runs

Both loops of the consolidator share one shape: walk the list in order,
keep a `current_cluster`, and start a new cluster whenever a boolean
test on the previous and current element fires
(`_cluster_and_merge_boxes` lines 151-159 for the horizontal pass,
`_clean_cluster` lines 134-141 for the vertical pass).  `splitRunsGo`
is that loop; `prev` is `boxes[i-1]` and `cur` is `current_cluster`.
-/

/-- The loop body shared by both clustering passes: `p prev b` is the
test `boxes[i] - boxes[i-1] > threshold` deciding a new cluster. -/
def splitRunsGo {α : Type} (p : α → α → Bool) (prev : α) (cur : List α) :
    List α → List (List α)
  | [] => [cur]
  | b :: rest =>
    if p prev b then cur :: splitRunsGo p b [b] rest
    else splitRunsGo p b (cur ++ [b]) rest

/-- Split a list into runs, starting a new run whenever `p prev cur` holds
between consecutive elements of the original list. -/
def splitRuns {α : Type} (p : α → α → Bool) : List α → List (List α)
  | [] => []
  | b :: rest => splitRunsGo p b [b] rest

/-- Front-recursive reformulation of `splitRuns`, convenient for proofs. -/
def splitRunsF {α : Type} (p : α → α → Bool) : List α → List (List α)
  | [] => []
  | [a] => [[a]]
  | a :: b :: rest =>
    match splitRunsF p (b :: rest) with
    | [] => [[a]]
    | c :: cs => if p a b then [a] :: c :: cs else (a :: c) :: cs

/-- Index of the run that holds position `i` of the concatenation of `cs`. -/
def runIndex {α : Type} : List (List α) → ℕ → ℕ
  | [], _ => 0
  | c :: cs, i => if i < c.length then 0 else runIndex cs (i - c.length) + 1

/-!
### The region consolidator (`_clean_cluster`, `_cluster_and_merge_boxes`)
-/

/-- The sort key of `cluster_boxes.sort(key=lambda b: b['y'])`. -/
def byY (a b : Box) : Prop := a.y ≤ b.y

instance : DecidableRel byY := fun a b => inferInstanceAs (Decidable (a.y ≤ b.y))

instance : IsTotal Box byY := ⟨fun a b => le_total a.y b.y⟩

instance : IsTrans Box byY := ⟨fun _ _ _ hab hbc => le_trans hab hbc⟩

/-- Python `list.sort(key=lambda b: b['y'])` is a stable sort by `y`;
insertion sort with `byY` is extensionally the same function. -/
def sortByY (l : List Box) : List Box := List.insertionSort byY l

/-- The strictly-positive consecutive vertical gaps of `_clean_cluster`
lines 127-128: `[b[i].y - b[i-1].y for i in 1.. if b[i].y > b[i-1].y]`. -/
def positiveGaps : List Box → List ℚ
  | a :: b :: rest =>
    if b.y > a.y then (b.y - a.y) :: positiveGaps (b :: rest)
    else positiveGaps (b :: rest)
  | _ => []

/-- Python `statistics.median`: sort, take the middle element for odd
length, the mean of the two middle elements for even length.  (The
source only calls it on non-empty lists; the empty case is junk.) -/
def statisticsMedian (l : List ℚ) : ℚ :=
  if l.length % 2 = 1 then
    (List.insertionSort (fun a b : ℚ => a ≤ b) l).getD (l.length / 2) 0
  else
    ((List.insertionSort (fun a b : ℚ => a ≤ b) l).getD (l.length / 2 - 1) 0 +
      (List.insertionSort (fun a b : ℚ => a ≤ b) l).getD (l.length / 2) 0) / 2

/-- Python `max(sub_clusters, key=len)`: the first element of maximal
length (`max` keeps the running value unless a strictly larger one
appears). -/
def maxByLen (l : List (List Box)) : List Box :=
  match l with
  | [] => []
  | c :: cs => cs.foldl (fun best x => if x.length > best.length then x else best) c

/-- `jump_threshold = standard_line_height * LINE_HEIGHT_MULTIPLIER`
(`_clean_cluster` lines 130-131). -/
def jumpThreshold (cluster : List Box) : ℚ :=
  statisticsMedian (positiveGaps (sortByY cluster)) * LINE_HEIGHT_MULTIPLIER

/-- The vertical split test of `_clean_cluster` line 136:
`gap > jump_threshold`. -/
def vertPred (jt : ℚ) (a b : Box) : Bool := decide (b.y - a.y > jt)

/-- The horizontal split test of `_cluster_and_merge_boxes` line 154:
`current_box_left_edge - prev_box_left_edge > threshold`. -/
def horizPred (threshold : ℚ) (a b : Box) : Bool := decide (b.x - a.x > threshold)

/-- `_clean_cluster` (lines 117-144).  Size ≤ 1 clusters pass through;
size-2 clusters drop header/footer boxes; larger clusters are sorted by
`y` and reduced to the largest vertical sub-cluster (the source computes
on the sorted list once; repeating the pure `sortByY` call is the same
value).  The `if splitRuns .. = []` branch is the source's dead
`if not sub_clusters: return []` check. -/
def cleanCluster (pageHeight : ℚ) (cluster : List Box) : List Box :=
  if cluster.length ≤ 1 then cluster
  else if cluster.length = 2 then
    cluster.filter (fun b =>
      !(decide (b.y < VERTICAL_Y_THRESHOLD_TOP) ||
        decide (b.y > pageHeight - VERTICAL_Y_THRESHOLD_BOTTOM)))
  else if positiveGaps (sortByY cluster) = [] then
    sortByY cluster
  else if splitRuns (vertPred (jumpThreshold cluster)) (sortByY cluster) = [] then
    []
  else
    maxByLen (splitRuns (vertPred (jumpThreshold cluster)) (sortByY cluster))

/-- The raw horizontal clusters formed by the loop of
`_cluster_and_merge_boxes` lines 149-161, before cleaning.  The split
decision reads `boxes[i-1]['x']` and `boxes[i]['x']` from the original
list, so it is independent of the interleaved cleaning. -/
def horizontalClusters (pageWidth : ℚ) (boxes : List Box) : List (List Box) :=
  splitRuns (horizPred (pageWidth * HORIZONTAL_THRESHOLD_FRACTION)) boxes

/-- The cleaned clusters collected into `clusters` by
`_cluster_and_merge_boxes` lines 149-161: each completed raw cluster is
passed through `_clean_cluster` and appended only if non-empty. -/
def cleanedClusters (pageWidth pageHeight : ℚ) (boxes : List Box) :
    List (List Box) :=
  if boxes = [] then []
  else ((horizontalClusters pageWidth boxes).map (cleanCluster pageHeight)).filter
    (fun c => !c.isEmpty)

/-- `min(b['x'] for b in cluster)` (junk 0 on the empty list, which the
source never reaches). -/
def clusterMinX : List Box → ℚ
  | [] => 0
  | b0 :: t => t.foldl (fun m b => min m b.x) b0.x

/-- `min(b['y'] for b in cluster)`. -/
def clusterMinY : List Box → ℚ
  | [] => 0
  | b0 :: t => t.foldl (fun m b => min m b.y) b0.y

/-- `max(b['x'] + b['w'] for b in cluster)`. -/
def clusterMaxX1 : List Box → ℚ
  | [] => 0
  | b0 :: t => t.foldl (fun m b => max m (b.x + b.w)) (b0.x + b0.w)

/-- `max(b['y'] + b['h'] for b in cluster)`. -/
def clusterMaxY1 : List Box → ℚ
  | [] => 0
  | b0 :: t => t.foldl (fun m b => max m (b.y + b.h)) (b0.y + b0.h)

/-- The merged bounding box of one cluster
(`_cluster_and_merge_boxes` lines 163-169). -/
def mergeCluster (cid : ℕ) (cluster : List Box) : MergedBox :=
  { cluster_id := cid
    x := clusterMinX cluster
    y := clusterMinY cluster
    w := clusterMaxX1 cluster - clusterMinX cluster
    h := clusterMaxY1 cluster - clusterMinY cluster }

/-- `for i, cluster in enumerate(clusters)` with `cluster_id = i + 1`. -/
def mergeAll (cid : ℕ) : List (List Box) → List MergedBox
  | [] => []
  | c :: rest => mergeCluster cid c :: mergeAll (cid + 1) rest

/-- `_cluster_and_merge_boxes` (lines 146-170): cluster, clean, merge. -/
def clusterAndMergeBoxes (pageWidth pageHeight : ℚ) (boxes : List Box) :
    List MergedBox :=
  mergeAll 1 (cleanedClusters pageWidth pageHeight boxes)

/-!
### Redaction planning (`_calculate_final_coordinates`, `_draw_rects_and_save`)
-/

/-- One entry of `final_pymupdf_coords`:
`(page_num, box['x'], box['y'], box['x']+box['w'], box['y']+box['h'])`. -/
def mergedBoxToCoord (page : ℤ) (m : MergedBox) : ℤ × ℚ × ℚ × ℚ × ℚ :=
  (page, m.x, m.y, m.x + m.w, m.y + m.h)

/-- The rectangle actually drawn (`_draw_rects_and_save` lines 67-68):
`fitz.Rect(x0, y0, x1, y1) + (-PAD, -PAD, PAD, PAD)`. -/
def paddedRect (x0 y0 x1 y1 : ℚ) : ℚ × ℚ × ℚ × ℚ :=
  (x0 - DELETION_PADDING, y0 - DELETION_PADDING,
    x1 + DELETION_PADDING, y1 + DELETION_PADDING)

/-!
### Coordinate parsing (`_extract_raw_reference_boxes`)

The XML layer (`ET.parse`, the namespace-scoped `findall` calls) is an
external collaborator; its outcome is modelled as an
`Except Unit (List (Option (List Char)))`: either the parse raised, or
it produced the list of reference elements, each carrying an optional
`coords` attribute.  Strings are modelled as `List Char`; Python
`int()` / `float()` are modelled as plain signed-decimal parsers whose
failure (`= none`) stands for the `ValueError` they raise.
-/

/-- Python `str.split(sep)` for a one-character separator
(`"".split(sep) == ['']`, so the empty input yields `[[]]`). -/
def splitOnChar (sep : Char) : List Char → List (List Char)
  | [] => [[]]
  | c :: rest =>
    if c = sep then [] :: splitOnChar sep rest
    else
      match splitOnChar sep rest with
      | [] => [[c]]
      | g :: gs => (c :: g) :: gs

/-- Decimal digit value of a character, if it is a digit. -/
def digitVal (c : Char) : Option ℕ :=
  if '0' ≤ c ∧ c ≤ '9' then some (c.toNat - 48) else none

def parseNatAux : List Char → ℕ → Option ℕ
  | [], acc => some acc
  | c :: rest, acc =>
    match digitVal c with
    | some d => parseNatAux rest (acc * 10 + d)
    | none => none

/-- A non-empty all-digit string as a natural number. -/
def parseNatChars : List Char → Option ℕ
  | [] => none
  | l => parseNatAux l 0

/-- Model of Python `int(s)`: optional minus sign, then digits. -/
def parseIntChars : List Char → Option ℤ
  | '-' :: rest => (parseNatChars rest).map (fun n => -(n : ℤ))
  | s => (parseNatChars s).map (fun n => (n : ℤ))

def parseUnsignedFloat (s : List Char) : Option ℚ :=
  match splitOnChar '.' s with
  | [ip] => (parseNatChars ip).map (fun n => (n : ℚ))
  | [ip, fp] =>
    match parseNatChars ip, parseNatChars fp with
    | some n, some f => some ((n : ℚ) + (f : ℚ) / ((10 : ℚ) ^ fp.length))
    | _, _ => none
  | _ => none

/-- Model of Python `float(s)`: optional minus sign, then a decimal
numeral with an optional fractional part. -/
def parseFloatChars : List Char → Option ℚ
  | '-' :: rest => (parseUnsignedFloat rest).map (fun q => -q)
  | s => parseUnsignedFloat s

/-- One `p,x,y,w,h` group (`_extract_raw_reference_boxes` lines 89-93):
a group that does not split into exactly 5 fields is skipped
(`Except.ok none`); a 5-field group with a malformed numeric field makes
`int()`/`float()` raise (`Except.error ()`). -/
def parseCoordGroup (g : List Char) : Except Unit (Option (ℤ × Box)) :=
  match splitOnChar ',' g with
  | [s0, s1, s2, s3, s4] =>
    match parseIntChars s0, parseFloatChars s1, parseFloatChars s2,
        parseFloatChars s3, parseFloatChars s4 with
    | some p, some x, some y, some w, some h =>
      Except.ok (some (p, { x := x, y := y, w := w, h := h }))
    | _, _, _, _, _ => Except.error ()
  | _ => Except.ok none

/-- The inner loop over `coords_str.split(';')`: collect parsed boxes in
order, the first raising group aborting the whole extraction. -/
def parseGroups : List (List Char) → Except Unit (List (ℤ × Box))
  | [] => Except.ok []
  | g :: gs =>
    match parseCoordGroup g, parseGroups gs with
    | Except.ok none, r => r
    | Except.ok (some pb), Except.ok l => Except.ok (pb :: l)
    | Except.ok (some _), Except.error e => Except.error e
    | Except.error e, _ => Except.error e

/-- The loop over `ref_items`: elements without a `coords` attribute are
skipped, the boxes of the others are accumulated in document order. -/
def collectBoxes : List (Option (List Char)) → Except Unit (List (ℤ × Box))
  | [] => Except.ok []
  | none :: rest => collectBoxes rest
  | some s :: rest =>
    match parseGroups (splitOnChar ';' s), collectBoxes rest with
    | Except.ok l1, Except.ok l2 => Except.ok (l1 ++ l2)
    | Except.error e, _ => Except.error e
    | _, Except.error e => Except.error e

/-- `_extract_raw_reference_boxes` (lines 76-96): any exception — a
failed XML parse or a `ValueError` from a numeric conversion — is caught
by the function's `except Exception: return {}`. -/
def extractRawReferenceBoxes (xmlParse : Except Unit (List (Option (List Char)))) :
    List (ℤ × Box) :=
  match xmlParse with
  | Except.error _ => []
  | Except.ok refItems =>
    match collectBoxes refItems with
    | Except.error _ => []
    | Except.ok boxes => boxes

/-- `boxes_by_page = defaultdict(list)` filled in insertion order:
group the flat parse output by page, keys in first-occurrence order. -/
def insertGrouped : List (ℤ × List Box) → ℤ × Box → List (ℤ × List Box)
  | [], pb => [(pb.1, [pb.2])]
  | (k, bs) :: rest, pb =>
    if k = pb.1 then (k, bs ++ [pb.2]) :: rest
    else (k, bs) :: insertGrouped rest pb

def groupByPage (l : List (ℤ × Box)) : List (ℤ × List Box) :=
  l.foldl insertGrouped []

/-!
### `_calculate_final_coordinates` and the jobs
-/

/-- Key order of `sorted(boxes_by_page.items())` (pages are unique keys). -/
def pageLe (a b : ℤ × List Box) : Prop := a.1 ≤ b.1

instance : DecidableRel pageLe := fun a b => inferInstanceAs (Decidable (a.1 ≤ b.1))

/-- `page_dimensions.get(page_num, {'width': 595, 'height': 842})`. -/
def lookupDim : List (ℤ × ℚ × ℚ) → ℤ → ℚ × ℚ
  | [], _ => (595, 842)
  | (k, d) :: rest, p => if k = p then d else lookupDim rest p

/-- `_calculate_final_coordinates` (lines 44-57): nothing parsed means
no coordinates; otherwise pages are visited in ascending order and each
page's merged boxes are appended as 5-tuples. -/
def calculateFinalCoordinates (boxesByPage : List (ℤ × List Box))
    (dims : List (ℤ × ℚ × ℚ)) : List (ℤ × ℚ × ℚ × ℚ × ℚ) :=
  if boxesByPage = [] then []
  else
    (List.insertionSort pageLe boxesByPage).flatMap (fun pg =>
      (clusterAndMergeBoxes (lookupDim dims pg.1).1 (lookupDim dims pg.1).2
        pg.2).map (mergedBoxToCoord pg.1))

/-- A Python exception as seen by the two job functions: whether it is a
`requests` exception, and its message. -/
structure PyExc where
  isRequestExc : Bool
  msg : String
deriving DecidableEq, Repr

/-- `ReferenceRedactor.process` (lines 35-42), with the collaborators
explicit: `pdfExists` is `os.path.exists`, `coords` the value of
`_calculate_final_coordinates`, `copyRes` the outcome of `shutil.copy`
(which on success writes the source bytes verbatim), and `drawRes` the
outcome of the guarded open/draw/save region of `_draw_rects_and_save`
(lines 59-74), whose written bytes are `drawnBytes`.  `shutil.copy` is
called outside any `try`, so its exception propagates out of `process`. -/
def process (pdfExists : Bool) (pdfBytes drawnBytes : List ℕ)
    (coords : List (ℤ × ℚ × ℚ × ℚ × ℚ)) (copyRes drawRes : Except PyExc Unit) :
    Except PyExc ((Bool × String) × Option (List ℕ)) :=
  if pdfExists = false then
    Except.ok ((false, "Corresponding PDF not found"), none)
  else if coords = [] then
    match copyRes with
    | Except.ok _ =>
      Except.ok ((true, "No references found; original file copied."), some pdfBytes)
    | Except.error e => Except.error e
  else
    match drawRes with
    | Except.ok _ =>
      Except.ok ((true, "Success (" ++ toString coords.length ++ " area(s) covered)."),
        some drawnBytes)
    | Except.error e =>
      Except.ok ((false, "An error occurred during PDF processing: " ++ e.msg), none)

/-- `BatchRedactionManager._get_raw_xml_from_grobid` (lines 240-256):
the `try` body, with every collaborator exception propagating out of it.
`openRead` is the `open(pdf_path)` read, `post` the HTTP call returning
`(status_code, content)`, `writeXml` the output write.  The handlers of
`getRawXmlFromGrobid` below then map every exception to a `(bool, str)`
pair. -/
def grobidTry (openRead : Except PyExc (List ℕ))
    (post : List ℕ → Except PyExc (ℕ × List ℕ))
    (writeXml : List ℕ → Except PyExc Unit) : Except PyExc (Bool × String) :=
  match openRead with
  | Except.error e => Except.error e
  | Except.ok pdf =>
    match post pdf with
    | Except.error e => Except.error e
    | Except.ok resp =>
      if resp.1 = 200 then
        match writeXml resp.2 with
        | Except.error e => Except.error e
        | Except.ok _ => Except.ok (true, "Success")
      else Except.ok (false, "GROBID returned status " ++ toString resp.1)

def getRawXmlFromGrobid (openRead : Except PyExc (List ℕ))
    (post : List ℕ → Except PyExc (ℕ × List ℕ))
    (writeXml : List ℕ → Except PyExc Unit) : Bool × String :=
  match grobidTry openRead post writeXml with
  | Except.ok r => r
  | Except.error e =>
    if e.isRequestExc then (false, "Request Error: " ++ e.msg)
    else (false, "An unexpected error occurred: " ++ e.msg)

theorem splitRunsF_head {α : Type} (p : α → α → Bool) (a : α) (l : List α) :
    ∃ t cs, splitRunsF p (a :: l) = (a :: t) :: cs := by
  induction l generalizing a with
  | nil => exact ⟨[], [], rfl⟩
  | cons b rest ih =>
    obtain ⟨t, cs, h⟩ := ih b
    by_cases hp : p a b = true
    · exact ⟨[], (b :: t) :: cs, by simp [splitRunsF, h, hp]⟩
    · exact ⟨b :: t, cs, by simp [splitRunsF, h, hp]⟩

theorem splitRunsGo_eq_splitRunsF {α : Type} (p : α → α → Bool) :
    ∀ (rest : List α) (prev : α) (cur : List α),
      ∃ t cs, splitRunsF p (prev :: rest) = (prev :: t) :: cs ∧
        splitRunsGo p prev cur rest = (cur ++ t) :: cs := by
  intro rest
  induction rest with
  | nil => exact fun prev cur => ⟨[], [], rfl, by simp [splitRunsGo]⟩
  | cons b rest2 ih =>
    intro prev cur
    obtain ⟨t1, cs1, hS1, hG1⟩ := ih b [b]
    obtain ⟨t2, cs2, hS2, hG2⟩ := ih b (cur ++ [b])
    have hE : ((b :: t1) :: cs1 : List (List α)) = (b :: t2) :: cs2 :=
      hS1.symm.trans hS2
    have ht : t1 = t2 := ((List.cons.inj (List.cons.inj hE).1).2)
    have hc : cs1 = cs2 := (List.cons.inj hE).2
    subst ht
    subst hc
    by_cases hp : p prev b = true
    · refine ⟨[], (b :: t1) :: cs1, ?_, ?_⟩
      · simp [splitRunsF, hS1, hp]
      · simp [splitRunsGo, hp, hG1]
    · refine ⟨b :: t1, cs1, ?_, ?_⟩
      · simp [splitRunsF, hS1, hp]
      · simp only [splitRunsGo, hp, if_false, Bool.false_eq_true]
        rw [hG2]
        simp

theorem splitRuns_eq_splitRunsF {α : Type} (p : α → α → Bool) (l : List α) :
    splitRuns p l = splitRunsF p l := by
  cases l with
  | nil => rfl
  | cons a rest =>
    obtain ⟨t, cs, hS, hG⟩ := splitRunsGo_eq_splitRunsF p rest a [a]
    rw [splitRuns, hG, hS]
    simp

theorem splitRunsF_flatten {α : Type} (p : α → α → Bool) :
    ∀ l : List α, (splitRunsF p l).flatten = l := by
  intro l
  induction l with
  | nil => rfl
  | cons a rest ih =>
    cases rest with
    | nil => rfl
    | cons b rest2 =>
      obtain ⟨t, cs, hS⟩ := splitRunsF_head p b rest2
      rw [hS] at ih
      by_cases hp : p a b = true
      · simp only [splitRunsF, hS, hp, if_true]
        simpa using ih
      · simp only [splitRunsF, hS, hp, if_false, Bool.false_eq_true]
        simpa using ih

theorem splitRunsF_ne_nil {α : Type} (p : α → α → Bool) :
    ∀ l : List α, ∀ c ∈ splitRunsF p l, c ≠ [] := by
  intro l
  induction l with
  | nil => intro c hc; simp [splitRunsF] at hc
  | cons a rest ih =>
    cases rest with
    | nil =>
      intro c hc
      simp only [splitRunsF, List.mem_singleton] at hc
      simp [hc]
    | cons b rest2 =>
      obtain ⟨t, cs, hS⟩ := splitRunsF_head p b rest2
      intro c hc
      by_cases hp : p a b = true
      · simp only [splitRunsF, hS, hp, if_true] at hc
        rcases List.mem_cons.mp hc with h1 | h2
        · simp [h1]
        · exact ih c (by rw [hS]; exact h2)
      · simp only [splitRunsF, hS, hp, if_false, Bool.false_eq_true] at hc
        rcases List.mem_cons.mp hc with h1 | h2
        · simp [h1]
        · exact ih c (by rw [hS]; exact List.mem_cons_of_mem _ h2)

theorem runIndex_cons_succ {α : Type} (c0 : List α) (cs : List (List α)) (a : α)
    (k : ℕ) : runIndex ((a :: c0) :: cs) (k + 1) = runIndex (c0 :: cs) k := by
  simp only [runIndex, List.length_cons]
  by_cases hk : k < c0.length
  · rw [if_pos (by omega), if_pos hk]
  · rw [if_neg (by omega), if_neg hk]
    have : k + 1 - (c0.length + 1) = k - c0.length := by omega
    rw [this]

/-- Two adjacent positions of the original list fall in the same run of
`splitRunsF p l` exactly when the split test `p` is false between them. -/
theorem splitRunsF_adjacent {α : Type} (p : α → α → Bool) :
    ∀ (l : List α) (i : ℕ) (h : i + 1 < l.length),
      (runIndex (splitRunsF p l) (i + 1) = runIndex (splitRunsF p l) i ↔
        p (l.get ⟨i, Nat.lt_of_succ_lt h⟩) (l.get ⟨i + 1, h⟩) = false) := by
  intro l
  induction l with
  | nil => intro i h; simp at h
  | cons a rest ih =>
    cases rest with
    | nil => intro i h; simp at h
    | cons b rest2 =>
      intro i h
      obtain ⟨t, cs, hS⟩ := splitRunsF_head p b rest2
      cases i with
      | zero =>
        by_cases hp : p a b = true
        · simp only [splitRunsF, hS, hp, if_true]
          simp only [runIndex, List.length_cons, List.length_nil]
          norm_num [hp]
        · simp only [splitRunsF, hS, hp, if_false, Bool.false_eq_true]
          simp only [runIndex, List.length_cons]
          have h0 : (0 : ℕ) < t.length + 1 + 1 := by omega
          have h1 : (1 : ℕ) < t.length + 1 + 1 := by omega
          rw [if_pos h0, if_pos h1]
          simpa using hp
      | succ j =>
        have hj : j + 1 < (b :: rest2).length := by
          simpa [List.length_cons] using Nat.lt_of_succ_lt_succ h
        have hget1 : (a :: b :: rest2).get ⟨j + 1, Nat.lt_of_succ_lt h⟩ =
            (b :: rest2).get ⟨j, Nat.lt_of_succ_lt hj⟩ := rfl
        have hget2 : (a :: b :: rest2).get ⟨j + 1 + 1, h⟩ =
            (b :: rest2).get ⟨j + 1, hj⟩ := rfl
        rw [hget1, hget2, ← ih j hj]
        by_cases hp : p a b = true
        · simp only [splitRunsF, hS, hp, if_true]
          have hshift : ∀ k : ℕ, runIndex ([a] :: (b :: t) :: cs) (k + 1) =
              runIndex ((b :: t) :: cs) k + 1 := by
            intro k
            simp [runIndex]
          rw [hshift, hshift]
          omega
        · simp only [splitRunsF, hS, hp, if_false, Bool.false_eq_true]
          simp only [runIndex_cons_succ]

/-!
### Helper lemmas
-/

theorem splitRuns_flatten {α : Type} (p : α → α → Bool) (l : List α) :
    (splitRuns p l).flatten = l := by
  rw [splitRuns_eq_splitRunsF]; exact splitRunsF_flatten p l

theorem splitRuns_ne_nil {α : Type} (p : α → α → Bool) (l : List α)
    (c : List α) (hc : c ∈ splitRuns p l) : c ≠ [] := by
  rw [splitRuns_eq_splitRunsF] at hc
  exact splitRunsF_ne_nil p l c hc

theorem splitRuns_nonempty {α : Type} (p : α → α → Bool) (a : α) (l : List α) :
    splitRuns p (a :: l) ≠ [] := by
  rw [splitRuns_eq_splitRunsF]
  obtain ⟨t, cs, hS⟩ := splitRunsF_head p a l
  simp [hS]

theorem mem_of_mem_splitRuns {α : Type} (p : α → α → Bool) (l : List α)
    (c : List α) (hc : c ∈ splitRuns p l) (a : α) (ha : a ∈ c) : a ∈ l := by
  have := splitRuns_flatten p l
  rw [← this]
  exact List.mem_flatten.mpr ⟨c, hc, ha⟩

theorem foldl_min_le_init (f : Box → ℚ) (t : List Box) :
    ∀ init : ℚ, t.foldl (fun m b => min m (f b)) init ≤ init := by
  induction t with
  | nil => intro init; simp
  | cons x t ih =>
    intro init
    calc (x :: t).foldl (fun m b => min m (f b)) init
        = t.foldl (fun m b => min m (f b)) (min init (f x)) := rfl
      _ ≤ min init (f x) := ih _
      _ ≤ init := min_le_left _ _

theorem foldl_min_le_mem (f : Box → ℚ) (t : List Box) :
    ∀ init : ℚ, ∀ b ∈ t, t.foldl (fun m b => min m (f b)) init ≤ f b := by
  induction t with
  | nil => intro init b hb; simp at hb
  | cons x t ih =>
    intro init b hb
    rcases List.mem_cons.mp hb with h | h
    · subst h
      calc (b :: t).foldl (fun m c => min m (f c)) init
          = t.foldl (fun m c => min m (f c)) (min init (f b)) := rfl
        _ ≤ min init (f b) := foldl_min_le_init f t _
        _ ≤ f b := min_le_right _ _
    · exact ih (min init (f x)) b h

theorem le_foldl_max_init (f : Box → ℚ) (t : List Box) :
    ∀ init : ℚ, init ≤ t.foldl (fun m b => max m (f b)) init := by
  induction t with
  | nil => intro init; simp
  | cons x t ih =>
    intro init
    calc init ≤ max init (f x) := le_max_left _ _
      _ ≤ t.foldl (fun m b => max m (f b)) (max init (f x)) := ih _
      _ = (x :: t).foldl (fun m b => max m (f b)) init := rfl

theorem le_foldl_max_mem (f : Box → ℚ) (t : List Box) :
    ∀ init : ℚ, ∀ b ∈ t, f b ≤ t.foldl (fun m b => max m (f b)) init := by
  induction t with
  | nil => intro init b hb; simp at hb
  | cons x t ih =>
    intro init b hb
    rcases List.mem_cons.mp hb with h | h
    · subst h
      calc f b ≤ max init (f b) := le_max_right _ _
        _ ≤ t.foldl (fun m c => max m (f c)) (max init (f b)) :=
          le_foldl_max_init f t _
        _ = (b :: t).foldl (fun m c => max m (f c)) init := rfl
    · exact ih (max init (f x)) b h

theorem clusterMinX_le (c : List Box) (b : Box) (hb : b ∈ c) :
    clusterMinX c ≤ b.x := by
  cases c with
  | nil => simp at hb
  | cons b0 t =>
    rcases List.mem_cons.mp hb with h | h
    · subst h; exact foldl_min_le_init (fun b => b.x) t _
    · exact foldl_min_le_mem (fun b => b.x) t _ b h

theorem clusterMinY_le (c : List Box) (b : Box) (hb : b ∈ c) :
    clusterMinY c ≤ b.y := by
  cases c with
  | nil => simp at hb
  | cons b0 t =>
    rcases List.mem_cons.mp hb with h | h
    · subst h; exact foldl_min_le_init (fun b => b.y) t _
    · exact foldl_min_le_mem (fun b => b.y) t _ b h

theorem le_clusterMaxX1 (c : List Box) (b : Box) (hb : b ∈ c) :
    b.x + b.w ≤ clusterMaxX1 c := by
  cases c with
  | nil => simp at hb
  | cons b0 t =>
    rcases List.mem_cons.mp hb with h | h
    · subst h; exact le_foldl_max_init (fun b => b.x + b.w) t _
    · exact le_foldl_max_mem (fun b => b.x + b.w) t _ b h

theorem le_clusterMaxY1 (c : List Box) (b : Box) (hb : b ∈ c) :
    b.y + b.h ≤ clusterMaxY1 c := by
  cases c with
  | nil => simp at hb
  | cons b0 t =>
    rcases List.mem_cons.mp hb with h | h
    · subst h; exact le_foldl_max_init (fun b => b.y + b.h) t _
    · exact le_foldl_max_mem (fun b => b.y + b.h) t _ b h

theorem foldl_maxlen_decomp (cs : List (List Box)) : ∀ c : List Box,
    ∃ pre suf,
      c :: cs = pre ++ (cs.foldl
        (fun best x => if x.length > best.length then x else best) c) :: suf ∧
      (∀ d ∈ pre, d.length < (cs.foldl
        (fun best x => if x.length > best.length then x else best) c).length) ∧
      ∀ d ∈ c :: cs, d.length ≤ (cs.foldl
        (fun best x => if x.length > best.length then x else best) c).length := by
  induction cs with
  | nil => exact fun c => ⟨[], [], rfl, by simp, by simp⟩
  | cons x cs ih =>
    intro c
    by_cases hx : x.length > c.length
    · obtain ⟨pre, suf, hdec, hpre, hall⟩ := ih x
      have hfold : (x :: cs).foldl
          (fun best y => if y.length > best.length then y else best) c =
          cs.foldl (fun best y => if y.length > best.length then y else best) x := by
        simp [List.foldl_cons, hx]
      rw [hfold]
      refine ⟨c :: pre, suf, ?_, ?_, ?_⟩
      · rw [List.cons_append, ← hdec]
      · intro d hd
        rcases List.mem_cons.mp hd with h | h
        · subst h
          exact lt_of_lt_of_le hx (hall x (List.mem_cons_self _ _))
        · exact hpre d h
      · intro d hd
        rcases List.mem_cons.mp hd with h | h
        · subst h
          exact le_of_lt (lt_of_lt_of_le hx (hall x (List.mem_cons_self _ _)))
        · exact hall d h
    · obtain ⟨pre, suf, hdec, hpre, hall⟩ := ih c
      have hfold : (x :: cs).foldl
          (fun best y => if y.length > best.length then y else best) c =
          cs.foldl (fun best y => if y.length > best.length then y else best) c := by
        simp [List.foldl_cons, hx]
      rw [hfold]
      cases pre with
      | nil =>
        have hc : c = cs.foldl
            (fun best y => if y.length > best.length then y else best) c :=
          (List.cons.inj hdec).1
        have hcs : cs = suf := (List.cons.inj hdec).2
        refine ⟨[], x :: suf, ?_, by simp, ?_⟩
        · rw [List.nil_append, ← hc, ← hcs]
        · intro d hd
          rcases List.mem_cons.mp hd with h | h
          · subst h; rw [← hc]
          · rcases List.mem_cons.mp h with h2 | h2
            · subst h2
              rw [← hc]
              omega
            · exact hall d (List.mem_cons_of_mem _ h2)
      | cons p0 pre2 =>
        have hc : c = p0 := (List.cons.inj hdec).1
        have hcs : cs = pre2 ++ (cs.foldl
            (fun best y => if y.length > best.length then y else best) c) :: suf :=
          (List.cons.inj hdec).2
        refine ⟨c :: x :: pre2, suf, ?_, ?_, ?_⟩
        · rw [List.cons_append, List.cons_append, ← hcs]
        · intro d hd
          rcases List.mem_cons.mp hd with h | h
          · subst h
            have := hpre p0 (List.mem_cons_self _ _)
            rw [← hc] at this
            exact this
          · rcases List.mem_cons.mp h with h2 | h2
            · subst h2
              have hcl := hpre p0 (List.mem_cons_self _ _)
              rw [← hc] at hcl
              omega
            · exact hpre d (List.mem_cons_of_mem _ h2)
        · intro d hd
          rcases List.mem_cons.mp hd with h | h
          · subst h; exact hall d (by rw [hdec]; subst hc; exact List.mem_cons_self _ _)
          · rcases List.mem_cons.mp h with h2 | h2
            · subst h2
              have hcl := hall c (List.mem_cons_self _ _)
              omega
            · exact hall d (List.mem_cons_of_mem _ h2)

/-- `max(sub_clusters, key=len)` returns the first sub-cluster of
maximal length: everything before it is strictly shorter, nothing is
longer. -/
theorem maxByLen_decomp (l : List (List Box)) (hl : l ≠ []) :
    ∃ pre suf, l = pre ++ maxByLen l :: suf ∧
      (∀ d ∈ pre, d.length < (maxByLen l).length) ∧
      ∀ d ∈ l, d.length ≤ (maxByLen l).length := by
  cases l with
  | nil => exact absurd rfl hl
  | cons c cs => exact foldl_maxlen_decomp cs c

theorem maxByLen_mem (l : List (List Box)) (hl : l ≠ []) : maxByLen l ∈ l := by
  obtain ⟨pre, suf, hdec, -, -⟩ := maxByLen_decomp l hl
  have hmem : maxByLen l ∈ pre ++ maxByLen l :: suf :=
    List.mem_append.mpr (Or.inr (List.mem_cons_self _ _))
  rw [← hdec] at hmem
  exact hmem

theorem mergeAll_getElem? : ∀ (l : List (List Box)) (k i : ℕ),
    (mergeAll k l)[i]? = (l[i]?).map (fun c => mergeCluster (k + i) c) := by
  intro l
  induction l with
  | nil => intro k i; simp [mergeAll]
  | cons c rest ih =>
    intro k i
    cases i with
    | zero => simp [mergeAll]
    | succ j =>
      simp only [mergeAll, List.getElem?_cons_succ]
      rw [ih (k + 1) j]
      have : k + 1 + j = k + (j + 1) := by omega
      rw [this]

theorem gaps_nil_head_eq : ∀ (rest : List Box) (a : Box),
    List.Sorted byY (a :: rest) → positiveGaps (a :: rest) = [] →
    ∀ b ∈ a :: rest, b.y = a.y := by
  intro rest
  induction rest with
  | nil =>
    intro a _ _ b hb
    rw [List.mem_singleton.mp hb]
  | cons b2 rest2 ih =>
    intro a hsort hgap b hb
    obtain ⟨hab, hs2⟩ := List.sorted_cons.mp hsort
    have hng : ¬ b2.y > a.y := by
      intro hgt
      rw [positiveGaps, if_pos hgt] at hgap
      exact List.cons_ne_nil _ _ hgap
    have hgap2 : positiveGaps (b2 :: rest2) = [] := by
      rw [positiveGaps, if_neg hng] at hgap
      exact hgap
    have heq : b2.y = a.y :=
      le_antisymm (not_lt.mp hng) (hab b2 (List.mem_cons_self _ _))
    rcases List.mem_cons.mp hb with h | h
    · rw [h]
    · rw [ih b2 hs2 hgap2 b h, heq]

theorem orderedInsert_front (a : Box) (t : List Box)
    (h : ∀ x ∈ t, byY a x) : List.orderedInsert byY a t = a :: t := by
  cases t with
  | nil => rfl
  | cons b t2 =>
    rw [List.orderedInsert, if_pos (h b (List.mem_cons_self _ _))]

theorem sortByY_id_of_const (l : List Box)
    (h : ∀ x ∈ l, ∀ y ∈ l, x.y = y.y) : sortByY l = l := by
  induction l with
  | nil => rfl
  | cons a t ih =>
    have ht : sortByY t = t :=
      ih (fun x hx y hy =>
        h x (List.mem_cons_of_mem _ hx) y (List.mem_cons_of_mem _ hy))
    have : sortByY (a :: t) = List.orderedInsert byY a (sortByY t) := rfl
    rw [this, ht, orderedInsert_front]
    intro x hx
    show a.y ≤ x.y
    rw [h a (List.mem_cons_self _ _) x (List.mem_cons_of_mem _ hx)]

theorem mem_sortByY (l : List Box) (b : Box) : b ∈ sortByY l ↔ b ∈ l :=
  (List.perm_insertionSort byY l).mem_iff

theorem length_sortByY (l : List Box) : (sortByY l).length = l.length :=
  List.length_insertionSort byY l

theorem sorted_sortByY (l : List Box) : List.Sorted byY (sortByY l) :=
  List.sorted_insertionSort byY l

/-!
### The claims
-/

/-- C1: processing one page's boxes in order, two consecutive boxes land
in different horizontal clusters if and only if the current box's left
edge minus the previous box's left edge exceeds 0.16 × page_width; the
clusters concatenate back to the original box list. -/
theorem horizontal_clustering_split_iff (pageWidth : ℚ) (boxes : List Box)
    (i : ℕ) (h : i + 1 < boxes.length) :
    (horizontalClusters pageWidth boxes).flatten = boxes ∧
    (runIndex (horizontalClusters pageWidth boxes) i ≠
        runIndex (horizontalClusters pageWidth boxes) (i + 1) ↔
      (boxes.get ⟨i + 1, h⟩).x - (boxes.get ⟨i, Nat.lt_of_succ_lt h⟩).x >
        pageWidth * (16 / 100)) := by
  refine ⟨splitRuns_flatten _ boxes, ?_⟩
  unfold horizontalClusters
  rw [splitRuns_eq_splitRunsF]
  have hadj := splitRunsF_adjacent
    (horizPred (pageWidth * HORIZONTAL_THRESHOLD_FRACTION)) boxes i h
  have key : runIndex (splitRunsF
        (horizPred (pageWidth * HORIZONTAL_THRESHOLD_FRACTION)) boxes) (i + 1) =
      runIndex (splitRunsF
        (horizPred (pageWidth * HORIZONTAL_THRESHOLD_FRACTION)) boxes) i ↔
      ¬ ((boxes.get ⟨i + 1, h⟩).x - (boxes.get ⟨i, Nat.lt_of_succ_lt h⟩).x >
        pageWidth * (16 / 100)) := by
    rw [hadj]
    simp [horizPred, HORIZONTAL_THRESHOLD_FRACTION]
  constructor
  · intro hne
    by_contra hng
    exact hne (key.mpr hng).symm
  · intro hgt heq
    exact key.mp heq.symm hgt

/-- Witness for C1 at a concrete input: two boxes whose left edges
differ by 200 > 0.16 × 595 land in different clusters. -/
theorem horizontal_clustering_split_iff_witness :
    (horizontalClusters 595 [(⟨0, 0, 1, 1⟩ : Box), ⟨200, 0, 1, 1⟩]).flatten =
      [(⟨0, 0, 1, 1⟩ : Box), ⟨200, 0, 1, 1⟩] ∧
    (runIndex (horizontalClusters 595 [(⟨0, 0, 1, 1⟩ : Box), ⟨200, 0, 1, 1⟩]) 0 ≠
        runIndex (horizontalClusters 595 [(⟨0, 0, 1, 1⟩ : Box), ⟨200, 0, 1, 1⟩]) 1 ↔
      (([(⟨0, 0, 1, 1⟩ : Box), ⟨200, 0, 1, 1⟩] : List Box).get ⟨1, by decide⟩).x -
          (([(⟨0, 0, 1, 1⟩ : Box), ⟨200, 0, 1, 1⟩] : List Box).get ⟨0, by decide⟩).x >
        595 * (16 / 100)) :=
  horizontal_clustering_split_iff 595 [⟨0, 0, 1, 1⟩, ⟨200, 0, 1, 1⟩] 0 (by decide)

/-- C2: cleaning a cluster of size ≥ 3 sorts by y; with no strictly
positive consecutive gap the cluster is returned unchanged; otherwise
the sorted boxes are re-partitioned at every gap exceeding
median × 4, and the returned sub-cluster is the first one of maximal
box count (everything before it is strictly smaller, nothing is
larger), the sub-clusters concatenating back to the sorted list. -/
theorem clean_cluster_large (pageHeight : ℚ) (c : List Box)
    (hlen : 3 ≤ c.length) :
    (positiveGaps (sortByY c) = [] → cleanCluster pageHeight c = c) ∧
    (∀ subs, subs = splitRuns
        (vertPred (statisticsMedian (positiveGaps (sortByY c)) * 4)) (sortByY c) →
      positiveGaps (sortByY c) ≠ [] →
      subs.flatten = sortByY c ∧
      ∃ pre suf, subs = pre ++ cleanCluster pageHeight c :: suf ∧
        (∀ d ∈ pre, d.length < (cleanCluster pageHeight c).length) ∧
        ∀ d ∈ subs, d.length ≤ (cleanCluster pageHeight c).length) := by
  have h1 : ¬ c.length ≤ 1 := by omega
  have h2 : ¬ c.length = 2 := by omega
  constructor
  · intro hg
    have hcc : cleanCluster pageHeight c = sortByY c := by
      unfold cleanCluster
      rw [if_neg h1, if_neg h2, if_pos hg]
    have hconst : ∀ x ∈ c, ∀ y ∈ c, x.y = y.y := by
      cases hsort : sortByY c with
      | nil =>
        have hl := length_sortByY c
        rw [hsort] at hl
        simp at hl
        omega
      | cons a t =>
        have hsorted := sorted_sortByY c
        rw [hsort] at hsorted
        have hg2 : positiveGaps (a :: t) = [] := by rw [← hsort]; exact hg
        have hall := gaps_nil_head_eq t a hsorted hg2
        intro x hx y hy
        have hx2 : x ∈ a :: t := by
          rw [← hsort]; exact (mem_sortByY c x).mpr hx
        have hy2 : y ∈ a :: t := by
          rw [← hsort]; exact (mem_sortByY c y).mpr hy
        rw [hall x hx2, hall y hy2]
    rw [hcc]
    exact sortByY_id_of_const c hconst
  · intro subs hsubs hg
    have hjt : jumpThreshold c = statisticsMedian (positiveGaps (sortByY c)) * 4 := rfl
    have hne : splitRuns (vertPred (jumpThreshold c)) (sortByY c) ≠ [] := by
      cases hsort : sortByY c with
      | nil =>
        have hl := length_sortByY c
        rw [hsort] at hl
        simp at hl
        omega
      | cons a t => exact splitRuns_nonempty _ a t
    have hsubs2 : subs = splitRuns (vertPred (jumpThreshold c)) (sortByY c) := by
      rw [hsubs, hjt]
    have hclean : cleanCluster pageHeight c = maxByLen subs := by
      unfold cleanCluster
      rw [if_neg h1, if_neg h2, if_neg hg, if_neg hne, hsubs2]
    refine ⟨?_, ?_⟩
    · rw [hsubs2]
      exact splitRuns_flatten _ _
    · rw [hclean]
      exact maxByLen_decomp subs (by rw [hsubs2]; exact hne)

/-- Witness for C2: an equal-gap cluster passes through unchanged, and a
cluster with a stray box 500 units below keeps only the tight 3-box
sub-group. -/
theorem clean_cluster_large_witness :
    cleanCluster 842 [(⟨0, 50, 1, 1⟩ : Box), ⟨1, 50, 1, 1⟩, ⟨2, 50, 1, 1⟩] =
      [(⟨0, 50, 1, 1⟩ : Box), ⟨1, 50, 1, 1⟩, ⟨2, 50, 1, 1⟩] ∧
    cleanCluster 842 [(⟨0, 10, 1, 1⟩ : Box), ⟨0, 22, 1, 1⟩, ⟨0, 34, 1, 1⟩,
        ⟨0, 534, 1, 1⟩] =
      [⟨0, 10, 1, 1⟩, ⟨0, 22, 1, 1⟩, ⟨0, 34, 1, 1⟩] :=
  ⟨(clean_cluster_large 842 _ (by decide)).1 (by decide), by
    norm_num [cleanCluster, sortByY, List.insertionSort, List.orderedInsert, byY,
      positiveGaps, statisticsMedian, jumpThreshold, maxByLen, splitRuns,
      splitRunsGo, vertPred, LINE_HEIGHT_MULTIPLIER]
    rw [if_neg (List.cons_ne_nil _ _), if_neg (List.cons_ne_nil _ _)]⟩

/-- C3: in a size-2 cluster a box survives cleaning exactly when it is
outside the header zone (y < 120) and footer zone (y > page_height − 80);
if both boxes are in the header zone the cluster becomes empty and the
page yields no merged region. -/
theorem clean_cluster_size_two (pageHeight : ℚ) (a b : Box) :
    (∀ x, x ∈ cleanCluster pageHeight [a, b] ↔
      ((x = a ∨ x = b) ∧ ¬(x.y < 120 ∨ x.y > pageHeight - 80))) ∧
    (a.y < 120 → b.y < 120 → ∀ pageWidth, b.x - a.x ≤ pageWidth * (16 / 100) →
      clusterAndMergeBoxes pageWidth pageHeight [a, b] = []) := by
  have hcc : cleanCluster pageHeight [a, b] = [a, b].filter (fun x =>
      !(decide (x.y < VERTICAL_Y_THRESHOLD_TOP) ||
        decide (x.y > pageHeight - VERTICAL_Y_THRESHOLD_BOTTOM))) := by
    unfold cleanCluster
    rw [if_neg (by simp), if_pos (by simp)]
  constructor
  · intro x
    rw [hcc, List.mem_filter]
    simp only [List.mem_cons, List.mem_singleton, List.not_mem_nil, or_false,
      Bool.not_eq_true', Bool.or_eq_false_iff, decide_eq_false_iff_not,
      VERTICAL_Y_THRESHOLD_TOP, VERTICAL_Y_THRESHOLD_BOTTOM, not_or]
  · intro ha hb pageWidth hx
    have hp : horizPred (pageWidth * HORIZONTAL_THRESHOLD_FRACTION) a b = false := by
      simp only [horizPred, HORIZONTAL_THRESHOLD_FRACTION,
        decide_eq_false_iff_not, not_lt]
      linarith
    have hclusters : horizontalClusters pageWidth [a, b] = [[a, b]] := by
      unfold horizontalClusters
      simp [splitRuns, splitRunsGo, hp]
    have hclean : cleanCluster pageHeight [a, b] = [] := by
      rw [hcc, List.filter_eq_nil_iff]
      intro x hx2
      rcases List.mem_cons.mp hx2 with h | h
      · subst h
        simp [VERTICAL_Y_THRESHOLD_TOP, ha]
      · rw [List.mem_singleton.mp h]
        simp [VERTICAL_Y_THRESHOLD_TOP, hb]
    unfold clusterAndMergeBoxes cleanedClusters
    rw [if_neg (by simp), hclusters]
    simp [hclean, mergeAll]

/-- Witness for C3: two header-zone boxes (y = 50, 60) with a small
left-edge difference produce no region at all. -/
theorem clean_cluster_size_two_witness :
    clusterAndMergeBoxes 595 842 [(⟨0, 50, 1, 1⟩ : Box), ⟨10, 60, 1, 1⟩] = [] :=
  (clean_cluster_size_two 842 ⟨0, 50, 1, 1⟩ ⟨10, 60, 1, 1⟩).2
    (by norm_num) (by norm_num) 595 (by norm_num)

/-- C4: the i-th merged region is the axis-aligned bounding box of the
i-th cleaned cluster: no member box extends beyond it on any side. -/
theorem merged_region_bounds (pageWidth pageHeight : ℚ) (boxes : List Box)
    (i : ℕ) (c : List Box) (r : MergedBox)
    (hc : (cleanedClusters pageWidth pageHeight boxes)[i]? = some c)
    (hr : (clusterAndMergeBoxes pageWidth pageHeight boxes)[i]? = some r)
    (b : Box) (hb : b ∈ c) :
    r.x ≤ b.x ∧ r.y ≤ b.y ∧ b.x + b.w ≤ r.x + r.w ∧ b.y + b.h ≤ r.y + r.h := by
  have hr2 : (clusterAndMergeBoxes pageWidth pageHeight boxes)[i]? =
      ((cleanedClusters pageWidth pageHeight boxes)[i]?).map
        (fun c => mergeCluster (1 + i) c) := mergeAll_getElem? _ 1 i
  rw [hr2, hc] at hr
  have hrc : mergeCluster (1 + i) c = r := Option.some.inj hr
  subst hrc
  refine ⟨clusterMinX_le c b hb, clusterMinY_le c b hb, ?_, ?_⟩
  · have h1 := le_clusterMaxX1 c b hb
    show b.x + b.w ≤ clusterMinX c + (clusterMaxX1 c - clusterMinX c)
    linarith
  · have h1 := le_clusterMaxY1 c b hb
    show b.y + b.h ≤ clusterMinY c + (clusterMaxY1 c - clusterMinY c)
    linarith

/-- Witness for C4: a one-box page; the merged region is the box itself
and bounds it. -/
theorem merged_region_bounds_witness :
    (cleanedClusters 595 842 [(⟨10, 200, 5, 5⟩ : Box)])[0]? =
      some [⟨10, 200, 5, 5⟩] ∧
    (clusterAndMergeBoxes 595 842 [(⟨10, 200, 5, 5⟩ : Box)])[0]? =
      some ⟨1, 10, 200, 5, 5⟩ ∧
    ((⟨1, 10, 200, 5, 5⟩ : MergedBox).x ≤ (10 : ℚ) ∧
      (⟨1, 10, 200, 5, 5⟩ : MergedBox).y ≤ (200 : ℚ) ∧
      (10 : ℚ) + 5 ≤ (⟨1, 10, 200, 5, 5⟩ : MergedBox).x +
        (⟨1, 10, 200, 5, 5⟩ : MergedBox).w ∧
      (200 : ℚ) + 5 ≤ (⟨1, 10, 200, 5, 5⟩ : MergedBox).y +
        (⟨1, 10, 200, 5, 5⟩ : MergedBox).h) := by
  have h1 : (cleanedClusters 595 842 [(⟨10, 200, 5, 5⟩ : Box)])[0]? =
      some [⟨10, 200, 5, 5⟩] := by
    norm_num [cleanedClusters, horizontalClusters, splitRuns, splitRunsGo,
      cleanCluster]
  have h2 : (clusterAndMergeBoxes 595 842 [(⟨10, 200, 5, 5⟩ : Box)])[0]? =
      some ⟨1, 10, 200, 5, 5⟩ := by
    norm_num [clusterAndMergeBoxes, cleanedClusters, horizontalClusters,
      splitRuns, splitRunsGo, cleanCluster, mergeAll, mergeCluster,
      clusterMinX, clusterMinY, clusterMaxX1, clusterMaxY1]
  have h3 := merged_region_bounds 595 842 [(⟨10, 200, 5, 5⟩ : Box)] 0
    [⟨10, 200, 5, 5⟩] ⟨1, 10, 200, 5, 5⟩ h1 h2 ⟨10, 200, 5, 5⟩
    (List.mem_singleton.mpr rfl)
  exact ⟨h1, h2, h3⟩

/-- C5: the rectangle drawn for a merged region is the region's
rectangle expanded by exactly 7 units on each of the four sides, and so
contains the region. -/
theorem final_rect_padding (page : ℤ) (m : MergedBox) :
    mergedBoxToCoord page m = (page, m.x, m.y, m.x + m.w, m.y + m.h) ∧
    paddedRect m.x m.y (m.x + m.w) (m.y + m.h) =
      (m.x - 7, m.y - 7, m.x + m.w + 7, m.y + m.h + 7) ∧
    (paddedRect m.x m.y (m.x + m.w) (m.y + m.h)).1 ≤ m.x ∧
    (paddedRect m.x m.y (m.x + m.w) (m.y + m.h)).2.1 ≤ m.y ∧
    m.x + m.w ≤ (paddedRect m.x m.y (m.x + m.w) (m.y + m.h)).2.2.1 ∧
    m.y + m.h ≤ (paddedRect m.x m.y (m.x + m.w) (m.y + m.h)).2.2.2 := by
  refine ⟨rfl, rfl, ?_, ?_, ?_, ?_⟩
  · show m.x - DELETION_PADDING ≤ m.x
    rw [DELETION_PADDING]
    linarith
  · show m.y - DELETION_PADDING ≤ m.y
    rw [DELETION_PADDING]
    linarith
  · show m.x + m.w ≤ m.x + m.w + DELETION_PADDING
    rw [DELETION_PADDING]
    linarith
  · show m.y + m.h ≤ m.y + m.h + DELETION_PADDING
    rw [DELETION_PADDING]
    linarith

theorem splitRuns_ne_nil_of_ne_nil {α : Type} (p : α → α → Bool) (l : List α)
    (h : l ≠ []) : splitRuns p l ≠ [] := by
  cases l with
  | nil => exact absurd rfl h
  | cons a t => exact splitRuns_nonempty p a t

theorem sortByY_ne_nil (c : List Box) (h : c ≠ []) : sortByY c ≠ [] := by
  intro hnil
  have hl := length_sortByY c
  rw [hnil] at hl
  simp at hl
  exact h (List.length_eq_zero.mp hl.symm)

/-- C10: cluster cleaning only ever returns boxes of its input (it never
invents or modifies a box), and it returns a non-empty list for every
cluster of size 1 or of size ≥ 3 — only size-2 clusters can empty out. -/
theorem clean_cluster_subset (pageHeight : ℚ) (c : List Box) :
    (∀ b ∈ cleanCluster pageHeight c, b ∈ c) ∧
    (c.length = 1 → cleanCluster pageHeight c ≠ []) ∧
    (3 ≤ c.length → cleanCluster pageHeight c ≠ []) := by
  by_cases h1 : c.length ≤ 1
  · have hcc : cleanCluster pageHeight c = c := by
      unfold cleanCluster
      rw [if_pos h1]
    rw [hcc]
    refine ⟨fun b hb => hb, ?_, ?_⟩
    · intro hlen hnil
      rw [hnil] at hlen
      simp at hlen
    · intro hlen
      exact absurd hlen (by omega)
  · by_cases h2 : c.length = 2
    · have hcc : cleanCluster pageHeight c = c.filter (fun b =>
          !(decide (b.y < VERTICAL_Y_THRESHOLD_TOP) ||
            decide (b.y > pageHeight - VERTICAL_Y_THRESHOLD_BOTTOM))) := by
        unfold cleanCluster
        rw [if_neg h1, if_pos h2]
      rw [hcc]
      refine ⟨fun b hb => (List.mem_filter.mp hb).1, ?_, ?_⟩
      · intro hlen
        exact absurd hlen (by omega)
      · intro hlen
        exact absurd hlen (by omega)
    · have h3 : 3 ≤ c.length := by omega
      have hcne : c ≠ [] := by
        intro hnil
        rw [hnil] at h3
        simp at h3
      by_cases hg : positiveGaps (sortByY c) = []
      · have hcc : cleanCluster pageHeight c = sortByY c := by
          unfold cleanCluster
          rw [if_neg h1, if_neg h2, if_pos hg]
        rw [hcc]
        exact ⟨fun b hb => (mem_sortByY c b).mp hb,
          fun _ => sortByY_ne_nil c hcne, fun _ => sortByY_ne_nil c hcne⟩
      · have hne : splitRuns (vertPred (jumpThreshold c)) (sortByY c) ≠ [] :=
          splitRuns_ne_nil_of_ne_nil _ _ (sortByY_ne_nil c hcne)
        have hcc : cleanCluster pageHeight c =
            maxByLen (splitRuns (vertPred (jumpThreshold c)) (sortByY c)) := by
          unfold cleanCluster
          rw [if_neg h1, if_neg h2, if_neg hg, if_neg hne]
        rw [hcc]
        have hmem := maxByLen_mem _ hne
        refine ⟨?_, ?_, ?_⟩
        · intro b hb
          exact (mem_sortByY c b).mp
            (mem_of_mem_splitRuns _ _ _ hmem b hb)
        · intro hlen
          exact absurd hlen (by omega)
        · intro _
          exact splitRuns_ne_nil _ _ _ hmem

/-- Witness for C10: a singleton cluster and an equal-y 3-cluster both
survive cleaning. -/
theorem clean_cluster_subset_witness :
    cleanCluster 842 [(⟨0, 300, 5, 5⟩ : Box)] ≠ [] ∧
    cleanCluster 842 [(⟨0, 50, 1, 1⟩ : Box), ⟨1, 50, 1, 1⟩, ⟨2, 50, 1, 1⟩] ≠ [] :=
  ⟨(clean_cluster_subset 842 _).2.1 (by decide),
    (clean_cluster_subset 842 _).2.2 (by decide)⟩

theorem parseGroups_skip (g : List Char) (hg : parseCoordGroup g = Except.ok none) :
    ∀ gs1 gs2, parseGroups (gs1 ++ g :: gs2) = parseGroups (gs1 ++ gs2) := by
  intro gs1
  induction gs1 with
  | nil =>
    intro gs2
    simp only [List.nil_append]
    simp [parseGroups, hg]
  | cons g1 t ih =>
    intro gs2
    simp only [List.cons_append]
    rcases hpg : parseCoordGroup g1 with e | og
    · simp [parseGroups, hpg]
    · cases og with
      | none => simp [parseGroups, hpg, ih gs2]
      | some pb =>
        rcases hpt : parseGroups (t ++ gs2) with e2 | l2 <;>
          simp [parseGroups, hpg, ih gs2, hpt]

theorem parseGroups_abort (g : List Char)
    (hg : parseCoordGroup g = Except.error ()) :
    ∀ gs1 gs2 l, parseGroups gs1 = Except.ok l →
      parseGroups (gs1 ++ g :: gs2) = Except.error () := by
  intro gs1
  induction gs1 with
  | nil =>
    intro gs2 l _
    simp only [List.nil_append]
    simp [parseGroups, hg]
  | cons g1 t ih =>
    intro gs2 l hok
    simp only [List.cons_append]
    rcases hpg : parseCoordGroup g1 with e | og
    · simp [parseGroups, hpg] at hok
    · rcases hpt : parseGroups t with e2 | l2
      · cases og <;> simp [parseGroups, hpg, hpt] at hok
      · cases og <;> simp [parseGroups, hpg, ih gs2 l2 hpt]

theorem parseCoordGroup_wrong_arity (g : List Char)
    (hlen5 : (splitOnChar ',' g).length ≠ 5) :
    parseCoordGroup g = Except.ok none := by
  unfold parseCoordGroup
  rcases hsp : splitOnChar ',' g with
    _ | ⟨s0, _ | ⟨s1, _ | ⟨s2, _ | ⟨s3, _ | ⟨s4, _ | ⟨s5, tail⟩⟩⟩⟩⟩⟩ <;>
    simp [hsp] at hlen5 ⊢

/-- C6 counterexample: an input holding one conforming group and one
5-field group with a malformed numeric field ('a') yields the empty
mapping — the conforming group's box is NOT parsed, contrary to the
claim that only the non-conforming group is skipped. -/
theorem parse_failure_counterexample :
    extractRawReferenceBoxes
        (Except.ok [some ("1,10,10,5,5;1,a,10,5,5".data)]) = [] ∧
    ¬ ((1, (⟨10, 10, 5, 5⟩ : Box)) ∈ extractRawReferenceBoxes
        (Except.ok [some ("1,10,10,5,5;1,a,10,5,5".data)])) := by
  refine ⟨rfl, ?_⟩
  intro hmem
  rw [show extractRawReferenceBoxes
      (Except.ok [some ("1,10,10,5,5;1,a,10,5,5".data)]) = [] from rfl] at hmem
  exact List.not_mem_nil _ hmem

/-- C6 (amended): a group with the wrong field count is skipped silently
and removing it does not change the parse; but a 5-field group whose
numeric conversion fails aborts the whole group loop with an exception,
which the function boundary catches, returning the empty mapping — so
parsing never raises, and fully malformed input yields an empty
mapping, but conforming groups before or after a numerically malformed
group are discarded rather than kept. -/
theorem parse_failure_amended (g : List Char) (gs1 gs2 : List (List Char))
    (items : List (Option (List Char))) :
    ((splitOnChar ',' g).length ≠ 5 →
      parseCoordGroup g = Except.ok none ∧
      parseGroups (gs1 ++ g :: gs2) = parseGroups (gs1 ++ gs2)) ∧
    (parseCoordGroup g = Except.error () →
      (∃ l, parseGroups gs1 = Except.ok l) →
      parseGroups (gs1 ++ g :: gs2) = Except.error ()) ∧
    (collectBoxes items = Except.error () →
      extractRawReferenceBoxes (Except.ok items) = []) ∧
    extractRawReferenceBoxes (Except.error ()) = [] := by
  refine ⟨?_, ?_, ?_, rfl⟩
  · intro hlen5
    have hg := parseCoordGroup_wrong_arity g hlen5
    exact ⟨hg, parseGroups_skip g hg gs1 gs2⟩
  · rintro hg ⟨l, hok⟩
    exact parseGroups_abort g hg gs1 gs2 l hok
  · intro h
    simp [extractRawReferenceBoxes, h]

/-- Witness for C6 (amended) at concrete inputs: a 2-field group is
skipped, a numerically malformed 5-field group aborts to the empty
result, and a failed XML parse yields the empty result. -/
theorem parse_failure_amended_witness :
    parseCoordGroup ("1,2".data) = Except.ok none ∧
    parseGroups (["1,2,3,4,5".data] ++ "1,2".data :: []) =
      parseGroups (["1,2,3,4,5".data] ++ []) ∧
    parseGroups (["1,2,3,4,5".data] ++ "1,a,2,3,4".data :: []) =
      Except.error () ∧
    extractRawReferenceBoxes (Except.ok [some ("1,a,2,3,4".data)]) = [] ∧
    extractRawReferenceBoxes (Except.error ()) = [] := by
  have h1 := (parse_failure_amended ("1,2".data) ["1,2,3,4,5".data] []
    [some ("1,a,2,3,4".data)]).1 (by decide)
  have h2 := (parse_failure_amended ("1,a,2,3,4".data) ["1,2,3,4,5".data] []
    [some ("1,a,2,3,4".data)]).2.1 (by rfl)
    ⟨[(1, ⟨2, 3, 4, 5⟩)], by rfl⟩
  have h3 := (parse_failure_amended ("1,a,2,3,4".data) ["1,2,3,4,5".data] []
    [some ("1,a,2,3,4".data)]).2.2.1 (by rfl)
  have h4 := (parse_failure_amended ("1,a,2,3,4".data) ["1,2,3,4,5".data] []
    [some ("1,a,2,3,4".data)]).2.2.2
  exact ⟨h1.1, h1.2, h2, h3, h4⟩

/-- C7: when the computed coordinate list is empty and the copy
collaborator succeeds, the redaction job writes a byte-identical copy of
the source PDF and returns success with the "no references" message;
and an input with no qualifying markup elements produces an empty
coordinate list. -/
theorem no_references_copy (pdfBytes drawnBytes : List ℕ)
    (coords : List (ℤ × ℚ × ℚ × ℚ × ℚ)) (drawRes : Except PyExc Unit)
    (hempty : coords = []) :
    process true pdfBytes drawnBytes coords (Except.ok ()) drawRes =
      Except.ok ((true, "No references found; original file copied."),
        some pdfBytes) ∧
    (∀ dims, calculateFinalCoordinates [] dims = []) ∧
    extractRawReferenceBoxes (Except.ok []) = [] := by
  subst hempty
  exact ⟨rfl, fun dims => rfl, rfl⟩

/-- Witness for C7: concrete source bytes `[7, 7]` are copied verbatim
to the output and success is reported. -/
theorem no_references_copy_witness :
    process true [7, 7] [9] [] (Except.ok ()) (Except.ok ()) =
      Except.ok ((true, "No references found; original file copied."),
        some [7, 7]) ∧
    (∀ dims, calculateFinalCoordinates [] dims = []) ∧
    extractRawReferenceBoxes (Except.ok []) = [] :=
  no_references_copy [7, 7] [9] [] (Except.ok ()) rfl

/-- C8 counterexample: in the "no references" branch, the verbatim-copy
step sits outside any exception handler, so a copy failure escapes the
redaction job boundary as an exception instead of a `(false, message)`
result. -/
theorem job_exception_counterexample :
    process true [] [] [] (Except.error ⟨false, "copy failed"⟩) (Except.ok ()) =
      Except.error ⟨false, "copy failed"⟩ := rfl

/-- C8 (amended): the extraction job maps every collaborator failure and
every non-200 status to a `(false, message)` pair and never lets an
exception escape; the redaction job surfaces a missing source PDF and
any guarded open/draw/save failure as `(false, message)`, and returns a
`(success, message)` pair whenever the unguarded verbatim-copy step
succeeds or is not reached — only a copy failure escapes it. -/
theorem job_exception_amended (openRead : Except PyExc (List ℕ))
    (post : List ℕ → Except PyExc (ℕ × List ℕ))
    (writeXml : List ℕ → Except PyExc Unit)
    (pdfBytes drawnBytes : List ℕ) (coords : List (ℤ × ℚ × ℚ × ℚ × ℚ))
    (drawRes : Except PyExc Unit) (e : PyExc) :
    (openRead = Except.error e → e.isRequestExc = true →
      getRawXmlFromGrobid openRead post writeXml =
        (false, "Request Error: " ++ e.msg)) ∧
    (openRead = Except.error e → e.isRequestExc = false →
      getRawXmlFromGrobid openRead post writeXml =
        (false, "An unexpected error occurred: " ++ e.msg)) ∧
    (∀ pdf st body, openRead = Except.ok pdf → post pdf = Except.ok (st, body) →
      st ≠ 200 → getRawXmlFromGrobid openRead post writeXml =
        (false, "GROBID returned status " ++ toString st)) ∧
    (process false pdfBytes drawnBytes coords (Except.ok ()) drawRes =
      Except.ok ((false, "Corresponding PDF not found"), none)) ∧
    (drawRes = Except.error e → coords ≠ [] →
      process true pdfBytes drawnBytes coords (Except.error e) drawRes =
        Except.ok ((false, "An error occurred during PDF processing: " ++ e.msg),
          none)) ∧
    (∃ b m out, process true pdfBytes drawnBytes coords (Except.ok ()) drawRes =
      Except.ok ((b, m), out)) := by
  refine ⟨?_, ?_, ?_, rfl, ?_, ?_⟩
  · intro h hb
    subst h
    simp [getRawXmlFromGrobid, grobidTry, hb]
  · intro h hb
    subst h
    simp [getRawXmlFromGrobid, grobidTry, hb]
  · intro pdf st body h1 h2 hne
    subst h1
    simp [getRawXmlFromGrobid, grobidTry, h2, hne]
  · intro h hne
    subst h
    unfold process
    rw [if_neg (by simp), if_neg hne]
  · by_cases hc : coords = []
    · subst hc
      exact ⟨true, "No references found; original file copied.",
        some pdfBytes, rfl⟩
    · cases drawRes with
      | ok u =>
        cases u
        refine ⟨true, "Success (" ++ toString coords.length ++
          " area(s) covered).", some drawnBytes, ?_⟩
        unfold process
        rw [if_neg (by simp), if_neg hc]
      | error e2 =>
        refine ⟨false, "An error occurred during PDF processing: " ++ e2.msg,
          none, ?_⟩
        unfold process
        rw [if_neg (by simp), if_neg hc]

/-- Witness for C8 (amended): a transport error, a 500 status, and a
draw failure each surface as `(false, message)` at concrete inputs. -/
theorem job_exception_amended_witness :
    getRawXmlFromGrobid (Except.error ⟨true, "conn reset"⟩)
        (fun _ => Except.ok (200, [])) (fun _ => Except.ok ()) =
      (false, "Request Error: conn reset") ∧
    getRawXmlFromGrobid (Except.ok []) (fun _ => Except.ok (500, []))
        (fun _ => Except.ok ()) =
      (false, "GROBID returned status 500") ∧
    process true [] [] [(1, 0, 0, 1, 1)] (Except.error ⟨false, "x"⟩)
        (Except.error ⟨false, "draw fail"⟩) =
      Except.ok ((false, "An error occurred during PDF processing: draw fail"),
        none) := by
  refine ⟨?_, ?_, ?_⟩
  · exact (job_exception_amended (Except.error ⟨true, "conn reset"⟩)
      (fun _ => Except.ok (200, [])) (fun _ => Except.ok ()) [] [] []
      (Except.ok ()) ⟨true, "conn reset"⟩).1 rfl rfl
  · exact (job_exception_amended (Except.ok []) (fun _ => Except.ok (500, []))
      (fun _ => Except.ok ()) [] [] [] (Except.ok ())
      ⟨true, "conn reset"⟩).2.2.1 [] 500 [] rfl rfl (by decide)
  · exact (job_exception_amended (Except.ok [])
      (fun _ => Except.ok (200, [])) (fun _ => Except.ok ()) [] []
      [(1, 0, 0, 1, 1)] (Except.error ⟨false, "draw fail"⟩)
      ⟨false, "draw fail"⟩).2.2.2.2.1 rfl (by simp)

/-- C9 counterexample: the parser performs no check on the page field, so
the group `0,1,1,1,1` yields a RawBox with page 0, violating page ≥ 1. -/
theorem rawbox_page_counterexample :
    extractRawReferenceBoxes (Except.ok [some ("0,1,1,1,1".data)]) =
      [(0, ⟨1, 1, 1, 1⟩)] ∧ ¬ ((1 : ℤ) ≤ 0) := by
  exact ⟨rfl, by decide⟩

theorem parseCoordGroup_shape (g : List Char) (pb : ℤ × Box)
    (h : parseCoordGroup g = Except.ok (some pb)) :
    ∃ s0 s1 s2 s3 s4, splitOnChar ',' g = [s0, s1, s2, s3, s4] ∧
      parseIntChars s0 = some pb.1 := by
  unfold parseCoordGroup at h
  rcases hsp : splitOnChar ',' g with
    _ | ⟨s0, _ | ⟨s1, _ | ⟨s2, _ | ⟨s3, _ | ⟨s4, _ | ⟨s5, tail⟩⟩⟩⟩⟩⟩ <;>
      rw [hsp] at h <;> try simp at h
  rcases hi : parseIntChars s0 with _ | px
  · rw [hi] at h
    simp at h
  rw [hi] at h
  rcases hf1 : parseFloatChars s1 with _ | bx
  · rw [hf1] at h
    simp at h
  rw [hf1] at h
  rcases hf2 : parseFloatChars s2 with _ | by2
  · rw [hf2] at h
    simp at h
  rw [hf2] at h
  rcases hf3 : parseFloatChars s3 with _ | bw
  · rw [hf3] at h
    simp at h
  rw [hf3] at h
  rcases hf4 : parseFloatChars s4 with _ | bh
  · rw [hf4] at h
    simp at h
  rw [hf4] at h
  have hpb := Option.some.inj (Except.ok.inj h)
  refine ⟨s0, s1, s2, s3, s4, rfl, ?_⟩
  rw [← hpb]
  exact hi

theorem parseGroups_page : ∀ (gs : List (List Char)) (l : List (ℤ × Box)),
    parseGroups gs = Except.ok l → ∀ pb ∈ l,
    ∃ g ∈ gs, parseCoordGroup g = Except.ok (some pb) := by
  intro gs
  induction gs with
  | nil =>
    intro l hl pb hpb
    simp only [parseGroups, Except.ok.injEq] at hl
    rw [← hl] at hpb
    simp at hpb
  | cons g t ih =>
    intro l hl pb hpb
    rcases hpg : parseCoordGroup g with e | og
    · simp [parseGroups, hpg] at hl
    · cases og with
      | none =>
        have hl2 : parseGroups t = Except.ok l := by
          simpa [parseGroups, hpg] using hl
        obtain ⟨g2, hg2, hp2⟩ := ih l hl2 pb hpb
        exact ⟨g2, List.mem_cons_of_mem _ hg2, hp2⟩
      | some x =>
        rcases hpt : parseGroups t with e2 | l2
        · simp [parseGroups, hpg, hpt] at hl
        · have hl2 : x :: l2 = l := by
            simpa [parseGroups, hpg, hpt] using hl
          rw [← hl2] at hpb
          rcases List.mem_cons.mp hpb with h | h
          · rw [← h] at hpg
            exact ⟨g, List.mem_cons_self _ _, hpg⟩
          · obtain ⟨g2, hg2, hp2⟩ := ih l2 hpt pb h
            exact ⟨g2, List.mem_cons_of_mem _ hg2, hp2⟩

theorem collectBoxes_mem : ∀ (items : List (Option (List Char)))
    (l : List (ℤ × Box)), collectBoxes items = Except.ok l → ∀ pb ∈ l,
    ∃ s, some s ∈ items ∧
      ∃ l2, parseGroups (splitOnChar ';' s) = Except.ok l2 ∧ pb ∈ l2 := by
  intro items
  induction items with
  | nil =>
    intro l hl pb hpb
    simp only [collectBoxes, Except.ok.injEq] at hl
    rw [← hl] at hpb
    simp at hpb
  | cons it rest ih =>
    cases it with
    | none =>
      intro l hl pb hpb
      have hl2 : collectBoxes rest = Except.ok l := by
        simpa [collectBoxes] using hl
      obtain ⟨s, hs, l2, hp, hm⟩ := ih l hl2 pb hpb
      exact ⟨s, List.mem_cons_of_mem _ hs, l2, hp, hm⟩
    | some s =>
      intro l hl pb hpb
      rcases hps : parseGroups (splitOnChar ';' s) with e | l1
      · simp [collectBoxes, hps] at hl
      · rcases hcr : collectBoxes rest with e2 | l2
        · simp [collectBoxes, hps, hcr] at hl
        · have happ : l1 ++ l2 = l := by
            simpa [collectBoxes, hps, hcr] using hl
          rw [← happ] at hpb
          rcases List.mem_append.mp hpb with h | h
          · exact ⟨s, List.mem_cons_self _ _, l1, hps, h⟩
          · obtain ⟨s2, hs2, l3, hp3, hm3⟩ := ih l2 hcr pb h
            exact ⟨s2, List.mem_cons_of_mem _ hs2, l3, hp3, hm3⟩

/-- C9 (amended): every RawBox carries the page integer parsed verbatim
from its group's first field — the parser imposes no lower bound — so
page ≥ 1 holds exactly when every page field appearing in the input
parses to an integer ≥ 1. -/
theorem rawbox_page_amended (refItems : List (Option (List Char)))
    (hpages : ∀ s, some s ∈ refItems → ∀ g ∈ splitOnChar ';' s,
      ∀ s0 s1 s2 s3 s4, splitOnChar ',' g = [s0, s1, s2, s3, s4] →
      ∀ p : ℤ, parseIntChars s0 = some p → 1 ≤ p) :
    ∀ pb ∈ extractRawReferenceBoxes (Except.ok refItems), 1 ≤ pb.1 := by
  intro pb hpb
  have hred : extractRawReferenceBoxes (Except.ok refItems) =
      (match collectBoxes refItems with
        | Except.error _ => []
        | Except.ok boxes => boxes) := rfl
  rw [hred] at hpb
  rcases hcb : collectBoxes refItems with e | boxes
  · rw [hcb] at hpb
    simp at hpb
  · rw [hcb] at hpb
    obtain ⟨s, hs, l2, hpg, hm⟩ := collectBoxes_mem refItems boxes hcb pb hpb
    obtain ⟨g, hg, hcg⟩ := parseGroups_page (splitOnChar ';' s) l2 hpg pb hm
    obtain ⟨s0, s1, s2, s3, s4, hsp, hint⟩ := parseCoordGroup_shape g pb hcg
    exact hpages s hs g hg s0 s1 s2 s3 s4 hsp pb.1 hint

/-- Witness for C9 (amended): an input whose only page field is 1
produces a box with page ≥ 1. -/
theorem rawbox_page_amended_witness :
    (1 : ℤ) ≤ (((1 : ℤ), (⟨5, 5, 5, 5⟩ : Box))).1 := by
  apply rawbox_page_amended [some ("1,5,5,5,5".data)]
  case a =>
    rw [show extractRawReferenceBoxes (Except.ok [some ("1,5,5,5,5".data)]) =
      [((1 : ℤ), (⟨5, 5, 5, 5⟩ : Box))] from rfl]
    exact List.mem_singleton.mpr rfl
  intro s hs
  rw [List.mem_singleton] at hs
  have hs2 := Option.some.inj hs
  rw [hs2]
  intro g hg
  have hsplit : splitOnChar ';' ("1,5,5,5,5".data) = ["1,5,5,5,5".data] := by
    decide
  rw [hsplit] at hg
  have hg2 := List.mem_singleton.mp hg
  rw [hg2]
  intro s0 s1 s2 s3 s4 heq
  have hsp : splitOnChar ',' ("1,5,5,5,5".data) =
      ["1".data, "5".data, "5".data, "5".data, "5".data] := by decide
  rw [hsp] at heq
  have h0 : "1".data = s0 := (List.cons.inj heq).1
  intro p hp
  rw [← h0] at hp
  rw [show parseIntChars ("1".data) = some 1 from by decide] at hp
  have := Option.some.inj hp
  omega
